import Mathlib

/-!
Verification of the client-side transfer engine in
`sdk/storage/storage-file/src/FileClient.ts`.

This file gives a shallow embedding of the arithmetic and control flow of
the transfer orchestrators and validation wrappers of `FileClient`:

* the chunk plan computed by `uploadResetableStream` (lines 1064-1090) and
  `UploadSeekableBlob` (lines 966-988), which both run
  `numBlocks = Math.floor((size - 1) / rangeSize) + 1` and then enqueue
  one range upload per block;
* the per-chunk progress accumulation (`transferProgress += contentLength`)
  those orchestrators perform in chunk-completion order;
* `downloadToBuffer` (lines 1105-1172): option defaulting, synchronous
  validations, the optional `getProperties` size discovery, and the chunk
  loop `for (off = offset; off < offset + count; off += rangeSize)`;
* `uploadStream` (lines 1196-1251): validations, the initial `create(size)`,
  the outgoing handler's declared-size guard, and the outgoing concurrency
  `Math.ceil((maxBuffers / 4) * 3)` passed to the `BufferScheduler`;
* the reopen factory built by `download` (lines 610-640);
* the synchronous `RangeError` validations of `create` (lines 542-557) and
  `uploadRange` (lines 771-797).

JavaScript numbers are modelled as `ℤ` (every quantity involved is an
integer), `Math.floor` of an integer quotient as `Int.fdiv`, JavaScript
truthiness of an optional numeric option as `jsTruthy`, methods that can
throw as `Except`/error fields, and the network requests a method issues as
explicit lists of call records, so that "fails before any network call" is
expressible.
-/

deriving instance DecidableEq for Except

namespace FileClientSpec

/-- Maximum size of a single range operation.  The constant lives in
`utils/constants.ts` (outside the sources in scope); `FileClient.ts`
documents it as 4 MB: "The range can be up to 4 MB in size" (line 760) and
"Size must be > 0 and <= 4 * 1024 * 1024 (4MB)" (line 1190). -/
def FILE_RANGE_MAX_SIZE_BYTES : ℤ := 4 * 1024 * 1024

/-- Maximum file size.  The constant lives in `utils/constants.ts`;
`FileClient.ts` documents it as 1 TB: "Specifies the maximum size in bytes
for the file, up to 1 TB" (line 537). -/
def FILE_MAX_SIZE_BYTES : ℤ := 1024 * 1024 * 1024 * 1024

/-- Default high-level parallelism, from `utils/constants.ts`.  Its exact
value (5 in the SDK) is irrelevant to the claims below; only its
nonnegativity is ever used. -/
def DEFAULT_HIGH_LEVEL_PARALLELISM : ℤ := 5

/-- Errors thrown synchronously by `FileClient` methods.  Every throw in the
modelled code is a JavaScript `RangeError`; the cases record which message
was thrown. -/
inductive FileRangeErr where
  /-- "File size must >= 0 and < FILE_MAX_SIZE_BYTES." (create, line 548) -/
  | sizeOutOfRange
  /-- "offset must >= 0 and contentLength must be > 0" (uploadRange, line 779) -/
  | offsetOrContentLengthInvalid
  /-- "offset must be < FILE_RANGE_MAX_SIZE_BYTES bytes" (uploadRange, line 783) -/
  | contentLengthTooLarge
  /-- "rangeSize option must be > 0" (downloadToBuffer, line 1116) -/
  | rangeSizeInvalid
  /-- "offset option must be >= 0" (downloadToBuffer, line 1120) -/
  | offsetInvalid
  /-- "count option must be > 0" (downloadToBuffer, line 1124) -/
  | countInvalid
  /-- "options.parallelism cannot less than 0." (downloadToBuffer, line 1131) -/
  | parallelismInvalid
  /-- "offset shouldn't be larger than file size" (downloadToBuffer, line 1140) -/
  | offsetLargerThanFileSize
  /-- "The buffer's size should be equal to or larger than the request count
  of bytes" (downloadToBuffer, line 1146) -/
  | bufferTooSmall
  /-- "bufferSize must be > 0 and <= FILE_RANGE_MAX_SIZE_BYTES" (uploadStream, line 1209) -/
  | bufferSizeInvalid
  /-- "maxBuffers must be > 0." (uploadStream, line 1213) -/
  | maxBuffersInvalid
  /-- "Stream size is larger than file size ... uploading failed." (uploadStream, line 1231) -/
  | streamLargerThanFileSize
  deriving DecidableEq, Repr

/-- Embedding of `FileClient.create(size)` (lines 542-557): the synchronous
size validation, then the single `context.create(size, ...)` request.  The
`.ok` payload is the size passed to the underlying request; an `.error`
result carries no request, matching the fact that the code throws before
`this.context.create` is reached. -/
def create (size : ℤ) : Except FileRangeErr ℤ :=
  if size < 0 ∨ size > FILE_MAX_SIZE_BYTES then .error .sizeOutOfRange
  else .ok size

/-- The `(offset, contentLength)` pair handed by `uploadRange` to
`context.uploadRange` via `rangeToString({ count: contentLength, offset })`. -/
structure UploadRangeCall where
  offset : ℤ
  contentLength : ℤ
  deriving DecidableEq, Repr

/-- Embedding of `FileClient.uploadRange(body, offset, contentLength)`
(lines 771-797): the two synchronous validations in source order, then the
single `context.uploadRange` request.  An `.error` result carries no
request, matching the throw happening before the network call. -/
def uploadRange (offset contentLength : ℤ) : Except FileRangeErr UploadRangeCall :=
  if offset < 0 ∨ contentLength ≤ 0 then .error .offsetOrContentLengthInvalid
  else if contentLength > FILE_RANGE_MAX_SIZE_BYTES then .error .contentLengthTooLarge
  else .ok ⟨offset, contentLength⟩

/-- A range download request, as produced by
`rangeToString({ offset, count })`: it asks for the byte interval
`[offset, offset + count)`. -/
structure RangeRequest where
  offset : ℤ
  count : ℤ
  deriving DecidableEq, Repr

/-- Embedding of the reopen factory `download` builds at lines 612-631:
`async (start) => context.download({ range: rangeToString({ count: offset +
res.contentLength - start, offset: start }) })`.  The body issues exactly
one `context.download` call, so the embedding returns the one-element list
of requests that invoking the factory at `start` issues.  `offset` is the
original download offset and `contentLength` the `res.contentLength` of the
initial response. -/
def downloadReopenRequests (offset contentLength start : ℤ) : List RangeRequest :=
  [{ offset := start, count := offset + contentLength - start }]

/-- One chunk enqueued by the chunked upload orchestrators: the
`(start, contentLength)` of the `uploadRange` call of block `i`. -/
structure ChunkOp where
  start : ℤ
  length : ℤ
  deriving DecidableEq, Repr

/-- `const numBlocks = Math.floor((size - 1) / options.rangeSize) + 1`
(lines 966 and 1064).  `Math.floor` of the exact quotient of two integers
is `Int.fdiv`; for `size = 0` this gives `fdiv (-1) C + 1 = 0`. -/
def numBlocks (size rangeSize : ℤ) : ℤ := Int.fdiv (size - 1) rangeSize + 1

/-- The body of block `i` of the upload loops (lines 970-987 and 1068-1089):
`start = rangeSize * i`, `end = i === numBlocks - 1 ? size : start +
rangeSize`, `contentLength = end - start`. -/
def chunkOp (size rangeSize n : ℤ) (i : ℕ) : ChunkOp :=
  let start := rangeSize * i
  let stop := if (i : ℤ) = n - 1 then size else start + rangeSize
  { start := start, length := stop - start }

/-- The ordered list of chunk operations the loops
`for (let i = 0; i < numBlocks; i++) batch.addOperation(...)` of
`uploadResetableStream` (lines 1064-1090) and `UploadSeekableBlob`
(lines 966-988) enqueue; the two loops are textually identical. -/
def chunkPlan (size rangeSize : ℤ) : List ChunkOp :=
  (List.range (numBlocks size rangeSize).toNat).map
    (chunkOp size rangeSize (numBlocks size rangeSize))

/-- The successive `loadedBytes` values reported by the orchestrators'
progress callback: each completing chunk runs `transferProgress +=
contentLength; options.progress({ loadedBytes: transferProgress })`
(lines 981-984 and 1083-1086).  The argument list is the chunk lengths in
the order the chunks complete. -/
def progressReports (transferProgress : ℤ) : List ℤ → List ℤ
  | [] => []
  | len :: rest => (transferProgress + len) :: progressReports (transferProgress + len) rest

/-- JavaScript truthiness of an optional numeric option: `undefined` and `0`
are falsy, every other number is truthy. -/
def jsTruthy : Option ℤ → Bool
  | none => false
  | some n => !(n == 0)

/-- The `if (!options.x) { options.x = d }` defaulting pattern used for
`rangeSize` and `parallelism` in `downloadToBuffer`. -/
def resolveOption (opt : Option ℤ) (dflt : ℤ) : ℤ :=
  if jsTruthy opt then opt.getD 0 else dflt

/-- The data of one chunk operation submitted by `downloadToBuffer`'s loop
(lines 1153-1169): the arguments of the `this.download(off, chunkEnd - off
+ 1)` request, the `streamToBuffer(stream, buffer, off - offset, chunkEnd -
offset)` destination window, and the `transferProgress += chunkEnd - off`
increment. -/
structure DtbChunk where
  downloadOffset : ℤ
  downloadCount : ℤ
  bufferStart : ℤ
  bufferEnd : ℤ
  progressInc : ℤ
  deriving DecidableEq, Repr

/-- The body of one iteration of the `downloadToBuffer` loop at loop
variable `off`: `const chunkEnd = off + rangeSize < count ? off + rangeSize
: count` (line 1155, note the comparison against `count`, not
`offset + count`), then the fields described at `DtbChunk`. -/
def dtbChunkAt (offset count rangeSize off : ℤ) : DtbChunk :=
  let chunkEnd := if off + rangeSize < count then off + rangeSize else count
  { downloadOffset := off
    downloadCount := chunkEnd - off + 1
    bufferStart := off - offset
    bufferEnd := chunkEnd - offset
    progressInc := chunkEnd - off }

/-- The loop `for (let off = offset; off < offset + count; off = off +
rangeSize)` (line 1153), fuelled: each iteration advances `off` by
`rangeSize`, so with `1 ≤ rangeSize` (guaranteed by the defaulting and the
`rangeSize < 0` validation) at most `count.toNat` iterations run before the
guard `off < offset + count` fails; `dtbLoop_fuel_stable` below shows the
fuel never runs out first. -/
def dtbLoop (offset count rangeSize : ℤ) : ℕ → ℤ → List DtbChunk
  | 0, _ => []
  | fuel + 1, off =>
    if off < offset + count then
      dtbChunkAt offset count rangeSize off :: dtbLoop offset count rangeSize fuel (off + rangeSize)
    else []

/-- The full list of chunk operations `downloadToBuffer` submits to its
`Batch` for a resolved `offset`, `count` and `rangeSize`. -/
def dtbChunks (offset count rangeSize : ℤ) : List DtbChunk :=
  dtbLoop offset count rangeSize count.toNat offset

/-- A network call issued by `downloadToBuffer`: the `getProperties` size
query, or the range download request of one chunk operation. -/
inductive NetCall where
  | getProperties
  | downloadRange (offset count : ℤ)
  deriving DecidableEq, Repr

/-- Outcome of a `downloadToBuffer` call: the network calls it issues (in
issue order; chunk downloads are recorded as submitted) and either the
thrown `RangeError` or the submitted chunk operations. -/
structure DtbRun where
  calls : List NetCall
  result : Except FileRangeErr (List DtbChunk)
  deriving DecidableEq, Repr

/-- Embedding of `FileClient.downloadToBuffer(buffer, offset, count,
options)` (lines 1105-1172), faithful to the source order: `rangeSize`
defaulting and validation, `offset` validation, the `count && count <= 0`
validation, `parallelism` defaulting and validation, the `if (!count)`
`getProperties` size discovery with its `count < 0` check, the
`buffer.length < count` capacity check, then the chunk loop.
`bufferLength` stands for `buffer.length` and `fileContentLength` for the
`contentLength` a `getProperties` response would report. -/
def downloadToBuffer (bufferLength offset : ℤ) (count0 : Option ℤ)
    (rangeSizeOpt parallelismOpt : Option ℤ) (fileContentLength : ℤ) : DtbRun :=
  let rangeSize := resolveOption rangeSizeOpt FILE_RANGE_MAX_SIZE_BYTES
  if rangeSize < 0 then ⟨[], .error .rangeSizeInvalid⟩
  else if offset < 0 then ⟨[], .error .offsetInvalid⟩
  else if jsTruthy count0 ∧ count0.getD 0 ≤ 0 then ⟨[], .error .countInvalid⟩
  else
    let parallelism := resolveOption parallelismOpt DEFAULT_HIGH_LEVEL_PARALLELISM
    if parallelism < 0 then ⟨[], .error .parallelismInvalid⟩
    else if jsTruthy count0 then
      let count := count0.getD 0
      if bufferLength < count then ⟨[], .error .bufferTooSmall⟩
      else
        let chunks := dtbChunks offset count rangeSize
        ⟨chunks.map (fun c => NetCall.downloadRange c.downloadOffset c.downloadCount),
         .ok chunks⟩
    else
      let count := fileContentLength - offset
      if count < 0 then ⟨[.getProperties], .error .offsetLargerThanFileSize⟩
      else if bufferLength < count then ⟨[.getProperties], .error .bufferTooSmall⟩
      else
        let chunks := dtbChunks offset count rangeSize
        ⟨NetCall.getProperties ::
           chunks.map (fun c => NetCall.downloadRange c.downloadOffset c.downloadCount),
         .ok chunks⟩

/-- The outgoing-dispatch concurrency `uploadStream` passes to its
`BufferScheduler`: `Math.ceil((maxBuffers / 4) * 3)` (line 1248), with the
quotient taken exactly (JavaScript float division of these integers is
exact in the relevant range). -/
def outgoingConcurrency (maxBuffers : ℤ) : ℤ := ⌈(maxBuffers : ℚ) / 4 * 3⌉

/-- Embedding of the outgoing handler `uploadStream` hands to its
`BufferScheduler` (lines 1228-1243): the declared-size guard on
`transferProgress + buffer.length`, then `this.uploadRange(buffer, offset,
buffer.length)`, then the progress update.  On success it returns the
issued range upload and the new `transferProgress`. -/
def uploadStreamOutgoingHandler (size transferProgress bufLen off : ℤ) :
    Except FileRangeErr (UploadRangeCall × ℤ) :=
  if transferProgress + bufLen > size then .error .streamLargerThanFileSize
  else
    match uploadRange off bufLen with
    | .error e => .error e
    | .ok call => .ok (call, transferProgress + bufLen)

/-- Drives a list of filled buffers `(length, recorded offset)` through the
outgoing handler, threading `transferProgress` and stopping at the first
error, and returns the range uploads issued together with the error, if
any.  This is the single-threaded sequentialisation of the scheduler's
dispatches; the handler's guard and upload arguments depend only on the
`transferProgress` at its own invocation, which the claims quantify over
separately. -/
def runBuffers (size : ℤ) (transferProgress : ℤ) :
    List (ℤ × ℤ) → List UploadRangeCall × Option FileRangeErr
  | [] => ([], none)
  | (bufLen, off) :: rest =>
    match uploadStreamOutgoingHandler size transferProgress bufLen off with
    | .error e => ([], some e)
    | .ok (call, tp) =>
      let r := runBuffers size tp rest
      (call :: r.1, r.2)

/-- A network operation performed by `uploadStream`: the initial
`create(size)` or a per-buffer range upload. -/
inductive UploadStreamEvent where
  | createFile (size : ℤ)
  | rangeUpload (offset length : ℤ)
  deriving DecidableEq, Repr

/-- The constructor arguments `uploadStream` passes to `new
BufferScheduler(stream, bufferSize, maxBuffers, outgoingHandler,
Math.ceil((maxBuffers / 4) * 3))` (lines 1224-1249). -/
structure SchedulerConfig where
  bufferSize : ℤ
  maxBuffers : ℤ
  concurrency : ℤ
  deriving DecidableEq, Repr

/-- Outcome of an `uploadStream` call: the network operations in issue
order, the `BufferScheduler` configuration if one was constructed, and the
error, if any. -/
structure UploadStreamRun where
  events : List UploadStreamEvent
  scheduler : Option SchedulerConfig
  error : Option FileRangeErr
  deriving DecidableEq, Repr

/-- Embedding of `FileClient.uploadStream(stream, size, bufferSize,
maxBuffers, options)` (lines 1196-1251), faithful to the source order: the
`bufferSize` validation, the `maxBuffers < 0` validation (note: `< 0`, even
though the message says "must be > 0"), `await this.create(size)`, then the
`BufferScheduler` construction and run.  `buffers` is the sequence of
filled buffers `(length, recorded offset)` the scheduler dispatches, in
dispatch order. -/
def uploadStream (size bufferSize maxBuffers : ℤ) (buffers : List (ℤ × ℤ)) :
    UploadStreamRun :=
  if bufferSize ≤ 0 ∨ bufferSize > FILE_RANGE_MAX_SIZE_BYTES then
    ⟨[], none, some .bufferSizeInvalid⟩
  else if maxBuffers < 0 then ⟨[], none, some .maxBuffersInvalid⟩
  else
    match create size with
    | .error e => ⟨[], none, some e⟩
    | .ok _ =>
      let r := runBuffers size 0 buffers
      ⟨.createFile size :: r.1.map (fun c => .rangeUpload c.offset c.contentLength),
       some ⟨bufferSize, maxBuffers, outgoingConcurrency maxBuffers⟩,
       r.2⟩

/-! Helper lemmas. -/

theorem jsTruthy_some_pos {n : ℤ} (h : 0 < n) : jsTruthy (some n) = true := by
  simp [jsTruthy]
  omega

theorem resolveOption_nonneg {opt : Option ℤ} {dflt : ℤ}
    (hopt : ∀ v, opt = some v → 0 ≤ v) (hd : 0 ≤ dflt) :
    0 ≤ resolveOption opt dflt := by
  unfold resolveOption
  cases opt with
  | none => simpa [jsTruthy]
  | some v =>
    by_cases hv : v = 0
    · simp [jsTruthy, hv, hd]
    · simpa [jsTruthy, hv] using hopt v rfl

/-! # C5 — outgoing concurrency versus maxBuffers -/

/-- C5 counterexample: the claim "for every maxBuffers ≥ 1 the concurrency
`ceil((maxBuffers / 4) * 3)` passed to the BufferScheduler is strictly less
than maxBuffers" fails at `maxBuffers = 1`: `uploadStream` accepts
`maxBuffers = 1` and passes concurrency `⌈3/4⌉ = 1`, which is not `< 1`. -/
theorem outgoingConcurrency_claim_fails_at_one :
    (uploadStream 0 1 1 []).scheduler = some ⟨1, 1, outgoingConcurrency 1⟩ ∧
    outgoingConcurrency 1 = 1 := by
  constructor
  · rfl
  · unfold outgoingConcurrency
    rw [Int.ceil_eq_iff] <;> norm_num

/-- C5 (amended): for every `maxBuffers ≥ 4` the outgoing-dispatch
concurrency `ceil((maxBuffers / 4) * 3)` is strictly less than
`maxBuffers`; for `maxBuffers` in 1..3 it equals `maxBuffers` (so the
claimed strict inequality first holds from 4 on). -/
theorem outgoingConcurrency_lt_maxBuffers (m : ℤ) :
    (4 ≤ m → outgoingConcurrency m < m) ∧
    (1 ≤ m → m ≤ 3 → outgoingConcurrency m = m) := by
  constructor
  · intro h4
    unfold outgoingConcurrency
    have hle : ((m : ℚ)) / 4 * 3 ≤ ((m - 1 : ℤ) : ℚ) := by
      rw [div_mul_eq_mul_div, div_le_iff (by norm_num : (0:ℚ) < 4)]
      push_cast
      have : (4 : ℚ) ≤ (m : ℚ) := by exact_mod_cast h4
      linarith
    have := Int.ceil_le.mpr hle
    omega
  · intro h1 h3
    interval_cases m <;> (unfold outgoingConcurrency; rw [Int.ceil_eq_iff] <;> norm_num)

/-- C5 witness: at `maxBuffers = 4` the amended bound gives concurrency
`⌈3⌉ = 3 < 4`, and at `maxBuffers = 3` equality holds. -/
theorem outgoingConcurrency_lt_maxBuffers_witness :
    outgoingConcurrency 4 < 4 ∧ outgoingConcurrency 3 = 3 :=
  ⟨(outgoingConcurrency_lt_maxBuffers 4).1 (by norm_num),
   (outgoingConcurrency_lt_maxBuffers 3).2 (by norm_num) (by norm_num)⟩

/-! # C6 — the reopen factory of download() -/

/-- C6: invoking the reopen factory of `download()` at resume position
`start` issues exactly one range download request, and that request covers
exactly `[start, offset + contentLength)` — it begins at the first
undelivered byte and ends at the original range's end, requesting
`offset + contentLength - start` bytes. -/
theorem download_reopen_request (offset contentLength start : ℤ) :
    (downloadReopenRequests offset contentLength start).length = 1 ∧
    (downloadReopenRequests offset contentLength start).map
        (fun r => (r.offset, r.offset + r.count))
      = [(start, offset + contentLength)] ∧
    (downloadReopenRequests offset contentLength start).map RangeRequest.count
      = [offset + contentLength - start] := by
  refine ⟨rfl, ?_, rfl⟩
  simp [downloadReopenRequests]

/-! # C8 — synchronous validations of create and uploadRange -/

/-- C8: `create(size)` throws a `RangeError` when `size < 0` or
`size > FILE_MAX_SIZE_BYTES`, and `uploadRange(body, offset,
contentLength)` throws a `RangeError` when `offset < 0`, `contentLength ≤
0`, or `contentLength > FILE_RANGE_MAX_SIZE_BYTES`; in every such case the
result is an error carrying no underlying request (the embedding's `.ok`
payload is the only way a request is issued). -/
theorem create_uploadRange_validation (size offset contentLength : ℤ) :
    ((size < 0 ∨ size > FILE_MAX_SIZE_BYTES) →
      create size = .error .sizeOutOfRange) ∧
    ((offset < 0 ∨ contentLength ≤ 0) →
      uploadRange offset contentLength = .error .offsetOrContentLengthInvalid) ∧
    (0 ≤ offset → 0 < contentLength → contentLength > FILE_RANGE_MAX_SIZE_BYTES →
      uploadRange offset contentLength = .error .contentLengthTooLarge) := by
  refine ⟨fun h => ?_, fun h => ?_, fun h1 h2 h3 => ?_⟩
  · simp [create, h]
  · simp [uploadRange, h]
  · rw [uploadRange, if_neg (by omega), if_pos h3]

/-- C8 witness: concrete invalid calls fail with the corresponding error. -/
theorem create_uploadRange_validation_witness :
    create (-1) = .error .sizeOutOfRange ∧
    uploadRange (-1) 5 = .error .offsetOrContentLengthInvalid ∧
    uploadRange 3 0 = .error .offsetOrContentLengthInvalid ∧
    uploadRange 0 (FILE_RANGE_MAX_SIZE_BYTES + 1) = .error .contentLengthTooLarge :=
  ⟨(create_uploadRange_validation (-1) 0 1).1 (Or.inl (by norm_num)),
   (create_uploadRange_validation 0 (-1) 5).2.1 (Or.inl (by norm_num)),
   (create_uploadRange_validation 0 3 0).2.1 (Or.inr (by norm_num)),
   (create_uploadRange_validation 0 0 (FILE_RANGE_MAX_SIZE_BYTES + 1)).2.2
     (by norm_num) (by norm_num [FILE_RANGE_MAX_SIZE_BYTES]) (by norm_num)⟩

/-! # C2 — the downloadToBuffer chunk arithmetic is broken -/

/-- C2 (code bug): a fully validated call `downloadToBuffer(buffer(5),
offset 10, count 5, rangeSize 4)` should request exactly the bytes
`[10, 15)` in contiguous non-overlapping chunks, but the code compares
`off + rangeSize` against `count` instead of `offset + count` (line 1155)
and requests `chunkEnd - off + 1` bytes (line 1156), so it submits the two
range download requests `(offset 10, count -4)` and `(offset 14, count
-8)`: negative lengths covering nothing.  Even at `offset = 0` every
non-final request asks for one byte more than its chunk, overlapping the
next chunk's first byte. -/
theorem downloadToBuffer_chunk_bug :
    (downloadToBuffer 5 10 (some 5) (some 4) none 0).calls
      = [.downloadRange 10 (-4), .downloadRange 14 (-8)] ∧
    (dtbChunks 0 10 4).map DtbChunk.downloadCount = [5, 5, 3] ∧
    (dtbChunks 0 10 4).map DtbChunk.progressInc = [4, 4, 2] := by
  refine ⟨?_, ?_, ?_⟩ <;> decide

/-- The fuel `count.toNat` given to `dtbLoop` never cuts the loop short:
with `1 ≤ rangeSize`, adding fuel beyond the remaining distance
`(offset + count - off).toNat` does not change the result. -/
theorem dtbLoop_fuel_stable (offset count rangeSize : ℤ) (hR : 1 ≤ rangeSize) :
    ∀ (fuel : ℕ) (off : ℤ), (offset + count - off).toNat ≤ fuel →
      dtbLoop offset count rangeSize fuel off
        = dtbLoop offset count rangeSize (fuel + 1) off := by
  intro fuel
  induction fuel with
  | zero =>
    intro off h
    have hno : ¬ (off < offset + count) := by omega
    simp [dtbLoop, hno]
  | succ n ih =>
    intro off h
    by_cases hoff : off < offset + count
    · simp only [dtbLoop, if_pos hoff]
      exact congrArg _ (ih (off + rangeSize) (by omega))
    · simp only [dtbLoop, if_neg hoff]

/-- `dtbChunks` equals the loop run with any surplus fuel: the embedding's
fuel choice is not observable. -/
theorem dtbChunks_fuel_irrelevant (offset count rangeSize : ℤ) (hR : 1 ≤ rangeSize)
    (extra : ℕ) :
    dtbLoop offset count rangeSize (count.toNat + extra) offset
      = dtbChunks offset count rangeSize := by
  induction extra with
  | zero => rfl
  | succ n ih =>
    have h := dtbLoop_fuel_stable offset count rangeSize hR (count.toNat + n) offset (by omega)
    calc dtbLoop offset count rangeSize (count.toNat + (n + 1)) offset
        = dtbLoop offset count rangeSize (count.toNat + n + 1) offset := rfl
      _ = dtbLoop offset count rangeSize (count.toNat + n) offset := h.symm
      _ = dtbChunks offset count rangeSize := ih

/-! # C3 — buffer capacity validation fails fast -/

/-- C3: a `downloadToBuffer` call with a specified `count > 0` whose
destination buffer is shorter than `count` fails with the buffer-capacity
`RangeError` and issues zero network calls, for any valid remaining
parameters. -/
theorem downloadToBuffer_bufferTooSmall_failsFast
    (bufferLength offset count fileContentLength : ℤ)
    (rangeSizeOpt parallelismOpt : Option ℤ)
    (hrs : ∀ v, rangeSizeOpt = some v → 0 ≤ v)
    (hp : ∀ v, parallelismOpt = some v → 0 ≤ v)
    (ho : 0 ≤ offset) (hc : 0 < count) (hbuf : bufferLength < count) :
    downloadToBuffer bufferLength offset (some count) rangeSizeOpt parallelismOpt
        fileContentLength
      = ⟨[], .error .bufferTooSmall⟩ := by
  have hrs0 : 0 ≤ resolveOption rangeSizeOpt FILE_RANGE_MAX_SIZE_BYTES :=
    resolveOption_nonneg hrs (by norm_num [FILE_RANGE_MAX_SIZE_BYTES])
  have hp0 : 0 ≤ resolveOption parallelismOpt DEFAULT_HIGH_LEVEL_PARALLELISM :=
    resolveOption_nonneg hp (by norm_num [DEFAULT_HIGH_LEVEL_PARALLELISM])
  have ht : jsTruthy (some count) = true := jsTruthy_some_pos hc
  simp only [downloadToBuffer, ht, Option.getD_some]
  split_ifs with h1 h2 h3 h4 <;> first
    | rfl
    | omega
    | (exfalso; simp_all)

/-- C3 witness: a buffer of length 1 cannot receive 2 requested bytes. -/
theorem downloadToBuffer_bufferTooSmall_failsFast_witness :
    downloadToBuffer 1 0 (some 2) none none 0 = ⟨[], .error .bufferTooSmall⟩ :=
  downloadToBuffer_bufferTooSmall_failsFast 1 0 2 0 none none
    (by intro v h; cases h) (by intro v h; cases h) (by norm_num) (by norm_num) (by norm_num)

/-! # C9 — count = 0 is treated as unspecified -/

/-- C9: `downloadToBuffer` with `count = 0` is not rejected by the
`count && count <= 0` validation (0 is falsy); instead the `!count` branch
runs, so the client first issues a `getProperties` call, derives the
effective count `fileContentLength - offset` (download to the end of the
file), and submits the chunk loop for that count. -/
theorem downloadToBuffer_countZero_discoversSize
    (bufferLength offset fileContentLength : ℤ)
    (rangeSizeOpt parallelismOpt : Option ℤ)
    (hrs : ∀ v, rangeSizeOpt = some v → 0 ≤ v)
    (hp : ∀ v, parallelismOpt = some v → 0 ≤ v)
    (ho : 0 ≤ offset) (hof : offset ≤ fileContentLength)
    (hbuf : fileContentLength - offset ≤ bufferLength) :
    downloadToBuffer bufferLength offset (some 0) rangeSizeOpt parallelismOpt
        fileContentLength
      = ⟨NetCall.getProperties ::
           (dtbChunks offset (fileContentLength - offset)
               (resolveOption rangeSizeOpt FILE_RANGE_MAX_SIZE_BYTES)).map
             (fun c => NetCall.downloadRange c.downloadOffset c.downloadCount),
         .ok (dtbChunks offset (fileContentLength - offset)
               (resolveOption rangeSizeOpt FILE_RANGE_MAX_SIZE_BYTES))⟩ := by
  have hrs0 : 0 ≤ resolveOption rangeSizeOpt FILE_RANGE_MAX_SIZE_BYTES :=
    resolveOption_nonneg hrs (by norm_num [FILE_RANGE_MAX_SIZE_BYTES])
  have hp0 : 0 ≤ resolveOption parallelismOpt DEFAULT_HIGH_LEVEL_PARALLELISM :=
    resolveOption_nonneg hp (by norm_num [DEFAULT_HIGH_LEVEL_PARALLELISM])
  have ht : jsTruthy (some 0) = false := by simp [jsTruthy]
  simp only [downloadToBuffer, ht, Option.getD_some]
  split_ifs with h1 h2 h3 h4 <;> first
    | rfl
    | omega
    | (exfalso; simp_all)

/-- C9 witness: `count = 0` against a 7-byte file from offset 2 issues
`getProperties` and then the chunk loop for the 5 remaining bytes. -/
theorem downloadToBuffer_countZero_discoversSize_witness :
    downloadToBuffer 10 2 (some 0) none none 7
      = ⟨NetCall.getProperties ::
           (dtbChunks 2 (7 - 2) (resolveOption none FILE_RANGE_MAX_SIZE_BYTES)).map
             (fun c => NetCall.downloadRange c.downloadOffset c.downloadCount),
         .ok (dtbChunks 2 (7 - 2) (resolveOption none FILE_RANGE_MAX_SIZE_BYTES))⟩ :=
  downloadToBuffer_countZero_discoversSize 10 2 7 none none
    (by intro v h; cases h) (by intro v h; cases h) (by norm_num) (by norm_num) (by norm_num)

/-! # C4 — uploadStream creates first, then guards the declared size -/

/-- C4: `uploadStream` issues `create(size)` as its first network operation
(for any accepted parameters), and its outgoing handler: raises the
stream-too-large `RangeError` instead of uploading whenever the cumulative
`transferProgress` plus the next filled buffer's length exceeds `size`, and
otherwise uploads exactly the buffer's length at the buffer's recorded
offset and advances the cumulative total by that length. -/
theorem uploadStream_declaredSizeGuard
    (size bufferSize maxBuffers transferProgress bufLen off : ℤ)
    (buffers : List (ℤ × ℤ))
    (hbs1 : 0 < bufferSize) (hbs2 : bufferSize ≤ FILE_RANGE_MAX_SIZE_BYTES)
    (hmb : 0 ≤ maxBuffers) (hsz1 : 0 ≤ size) (hsz2 : size ≤ FILE_MAX_SIZE_BYTES) :
    (uploadStream size bufferSize maxBuffers buffers).events.head?
        = some (.createFile size) ∧
    (transferProgress + bufLen > size →
      uploadStreamOutgoingHandler size transferProgress bufLen off
        = .error .streamLargerThanFileSize) ∧
    (transferProgress + bufLen ≤ size → 0 ≤ off → 0 < bufLen →
      bufLen ≤ FILE_RANGE_MAX_SIZE_BYTES →
      uploadStreamOutgoingHandler size transferProgress bufLen off
        = .ok (⟨off, bufLen⟩, transferProgress + bufLen)) := by
  refine ⟨?_, fun h => ?_, fun h1 h2 h3 h4 => ?_⟩
  · have hcr : create size = .ok size := by
      unfold create
      rw [if_neg (by push_neg; exact ⟨hsz1, hsz2⟩)]
    simp only [uploadStream, if_neg (show ¬ (bufferSize ≤ 0 ∨ bufferSize > FILE_RANGE_MAX_SIZE_BYTES)
      from by push_neg; exact ⟨hbs1, hbs2⟩), if_neg (show ¬ (maxBuffers < 0) from by omega), hcr]
    rfl
  · unfold uploadStreamOutgoingHandler
    rw [if_pos h]
  · have hur : uploadRange off bufLen = .ok ⟨off, bufLen⟩ := by
      unfold uploadRange
      rw [if_neg (by omega), if_neg (by omega)]
    unfold uploadStreamOutgoingHandler
    rw [if_neg (by omega), hur]

/-- C4 witness: creating a 10-byte file, a handler invocation at
cumulative progress 8 with a 4-byte buffer fails, and one at progress 4
uploads 4 bytes at recorded offset 4. -/
theorem uploadStream_declaredSizeGuard_witness :
    (uploadStream 10 4 2 []).events.head? = some (.createFile 10) ∧
    uploadStreamOutgoingHandler 10 8 4 8 = .error .streamLargerThanFileSize ∧
    uploadStreamOutgoingHandler 10 4 4 4 = .ok (⟨4, 4⟩, 8) :=
  ⟨(uploadStream_declaredSizeGuard 10 4 2 0 0 0 [] (by norm_num)
      (by norm_num [FILE_RANGE_MAX_SIZE_BYTES]) (by norm_num) (by norm_num)
      (by norm_num [FILE_MAX_SIZE_BYTES])).1,
   (uploadStream_declaredSizeGuard 10 4 2 8 4 8 [] (by norm_num)
      (by norm_num [FILE_RANGE_MAX_SIZE_BYTES]) (by norm_num) (by norm_num)
      (by norm_num [FILE_MAX_SIZE_BYTES])).2.1 (by norm_num),
   (uploadStream_declaredSizeGuard 10 4 2 4 4 4 [] (by norm_num)
      (by norm_num [FILE_RANGE_MAX_SIZE_BYTES]) (by norm_num) (by norm_num)
      (by norm_num [FILE_MAX_SIZE_BYTES])).2.2 (by norm_num) (by norm_num) (by norm_num)
      (by norm_num [FILE_RANGE_MAX_SIZE_BYTES])⟩

/-! # C10 — maxBuffers = 0 is accepted -/

/-- The outgoing handler never produces the maxBuffers validation error. -/
theorem uploadStreamOutgoingHandler_error_cases
    (size tp bufLen off : ℤ) (e : FileRangeErr)
    (h : uploadStreamOutgoingHandler size tp bufLen off = .error e) :
    e ≠ .maxBuffersInvalid := by
  intro he
  subst he
  simp only [uploadStreamOutgoingHandler, uploadRange] at h
  split_ifs at h <;> simp_all

/-- Driving buffers through the outgoing handler never produces the
maxBuffers validation error. -/
theorem runBuffers_error_ne_maxBuffersInvalid (size : ℤ) (buffers : List (ℤ × ℤ)) :
    ∀ tp : ℤ, (runBuffers size tp buffers).2 ≠ some .maxBuffersInvalid := by
  induction buffers with
  | nil => intro tp; simp [runBuffers]
  | cons b rest ih =>
    intro tp
    obtain ⟨bufLen, off⟩ := b
    simp only [runBuffers]
    rcases hh : uploadStreamOutgoingHandler size tp bufLen off with e | ⟨call, tp'⟩
    · simpa using fun hc =>
        uploadStreamOutgoingHandler_error_cases size tp bufLen off e hh hc
    · simpa using ih tp'

/-- C10: `uploadStream` with `maxBuffers = 0` passes the `maxBuffers < 0`
validation (so the "maxBuffers must be > 0." `RangeError` is never
thrown), creates the file, and constructs its `BufferScheduler` with
`maxBuffers = 0`. -/
theorem uploadStream_acceptsZeroMaxBuffers (size bufferSize : ℤ)
    (buffers : List (ℤ × ℤ))
    (hbs1 : 0 < bufferSize) (hbs2 : bufferSize ≤ FILE_RANGE_MAX_SIZE_BYTES)
    (hsz1 : 0 ≤ size) (hsz2 : size ≤ FILE_MAX_SIZE_BYTES) :
    (uploadStream size bufferSize 0 buffers).error ≠ some .maxBuffersInvalid ∧
    (uploadStream size bufferSize 0 buffers).events.head?
        = some (.createFile size) ∧
    (uploadStream size bufferSize 0 buffers).scheduler
        = some ⟨bufferSize, 0, outgoingConcurrency 0⟩ := by
  have hcr : create size = .ok size := by
    unfold create
    rw [if_neg (by push_neg; exact ⟨hsz1, hsz2⟩)]
  have hrun : uploadStream size bufferSize 0 buffers
      = ⟨.createFile size ::
           (runBuffers size 0 buffers).1.map (fun c => .rangeUpload c.offset c.contentLength),
         some ⟨bufferSize, 0, outgoingConcurrency 0⟩,
         (runBuffers size 0 buffers).2⟩ := by
    simp only [uploadStream, if_neg (show ¬ (bufferSize ≤ 0 ∨ bufferSize > FILE_RANGE_MAX_SIZE_BYTES)
      from by push_neg; exact ⟨hbs1, hbs2⟩), if_neg (show ¬ ((0:ℤ) < 0) from by omega), hcr]
  rw [hrun]
  exact ⟨runBuffers_error_ne_maxBuffersInvalid size buffers 0, rfl, rfl⟩

/-- C10 witness: `uploadStream(size 4, bufferSize 2, maxBuffers 0)`. -/
theorem uploadStream_acceptsZeroMaxBuffers_witness :
    (uploadStream 4 2 0 []).error ≠ some .maxBuffersInvalid ∧
    (uploadStream 4 2 0 []).events.head? = some (.createFile 4) ∧
    (uploadStream 4 2 0 []).scheduler = some ⟨2, 0, outgoingConcurrency 0⟩ :=
  uploadStream_acceptsZeroMaxBuffers 4 2 [] (by norm_num)
    (by norm_num [FILE_RANGE_MAX_SIZE_BYTES]) (by norm_num)
    (by norm_num [FILE_MAX_SIZE_BYTES])

/-! # C1 — the upload chunk plan partitions [0, size) -/

theorem neg_one_ediv (C : ℤ) (hC : 0 < C) : (-1 : ℤ) / C = -1 := by
  have h1 : (-1 : ℤ) / C < 0 := (Int.ediv_lt_iff_lt_mul hC).mpr (by omega)
  have h2 : (-1 : ℤ) ≤ -1 / C := (Int.le_ediv_iff_mul_le hC).mpr (by omega)
  omega

theorem numBlocks_zero (C : ℤ) (hC : 0 < C) : numBlocks 0 C = 0 := by
  unfold numBlocks
  rw [show (0:ℤ) - 1 = -1 from by norm_num, Int.fdiv_eq_ediv _ hC.le, neg_one_ediv C hC]
  norm_num

/-- For a positive size, `numBlocks` is at least 1 and squeezes the size:
`C * (numBlocks - 1) < size ≤ C * numBlocks`, i.e. it is `⌈size / C⌉`. -/
theorem numBlocks_bounds (S C : ℤ) (hS : 1 ≤ S) (hC : 0 < C) :
    1 ≤ numBlocks S C ∧ C * (numBlocks S C - 1) ≤ S - 1 ∧ S ≤ C * numBlocks S C := by
  unfold numBlocks
  rw [Int.fdiv_eq_ediv _ hC.le]
  have hd : 0 ≤ (S - 1) / C := Int.ediv_nonneg (by omega) hC.le
  have h1 : (S - 1) / C * C ≤ S - 1 := Int.ediv_mul_le (S - 1) hC.ne'
  have h2 : S - 1 < ((S - 1) / C + 1) * C := Int.lt_ediv_add_one_mul_self (S - 1) hC
  refine ⟨by omega, ?_, ?_⟩
  · calc C * ((S - 1) / C + 1 - 1) = (S - 1) / C * C := by ring
      _ ≤ S - 1 := h1
  · calc S = (S - 1) + 1 := by ring
      _ ≤ ((S - 1) / C + 1) * C := by linarith
      _ = C * ((S - 1) / C + 1) := by ring

theorem chunkPlan_nil (C : ℤ) (hC : 0 < C) : chunkPlan 0 C = [] := by
  unfold chunkPlan
  rw [numBlocks_zero C hC]
  rfl

theorem chunkOp_start (S C n : ℤ) (i : ℕ) : (chunkOp S C n i).start = C * i := rfl

theorem chunkOp_length_last (S C n : ℤ) (i : ℕ) (h : (i : ℤ) = n - 1) :
    (chunkOp S C n i).length = S - C * (n - 1) := by
  simp [chunkOp, h]

theorem chunkOp_length_mid (S C n : ℤ) (i : ℕ) (h : (i : ℤ) ≠ n - 1) :
    (chunkOp S C n i).length = C := by
  simp [chunkOp, h]

theorem chunkPlan_length_eq (S C : ℤ) :
    (chunkPlan S C).length = (numBlocks S C).toNat := by
  simp [chunkPlan]

theorem chunkPlan_get' (S C : ℤ) (i : Fin (chunkPlan S C).length) :
    (chunkPlan S C).get i = chunkOp S C (numBlocks S C) i.1 := by
  rw [List.get_eq_getElem]
  simp [chunkPlan]

theorem chunkPlan_mem (S C : ℤ) (c : ChunkOp) (hc : c ∈ chunkPlan S C) :
    ∃ i : ℕ, i < (numBlocks S C).toNat ∧ c = chunkOp S C (numBlocks S C) i := by
  simp only [chunkPlan, List.mem_map, List.mem_range] at hc
  obtain ⟨i, hi, h⟩ := hc
  exact ⟨i, hi, h.symm⟩

/-- Canonical form of the chunk lengths for a positive size:
`numBlocks - 1` full chunks of length `C` followed by the final chunk of
length `size - C * (numBlocks - 1)`. -/
theorem chunkPlan_map_length (S C : ℤ) (hS : 1 ≤ S) (hC : 0 < C) :
    (chunkPlan S C).map ChunkOp.length
      = List.replicate ((numBlocks S C).toNat - 1) C
          ++ [S - C * (numBlocks S C - 1)] := by
  obtain ⟨hn1, hlow, hup⟩ := numBlocks_bounds S C hS hC
  have hkn : ((numBlocks S C).toNat : ℤ) = numBlocks S C := Int.toNat_of_nonneg (by omega)
  have hkk : (numBlocks S C).toNat = ((numBlocks S C).toNat - 1) + 1 := by omega
  rw [chunkPlan]
  conv_lhs => rw [hkk]
  rw [List.range_succ, List.map_append, List.map_append]
  congr 1
  · rw [List.map_map, List.eq_replicate_iff]
    refine ⟨by simp, ?_⟩
    intro b hb
    simp only [List.mem_map, List.mem_range, Function.comp_apply] at hb
    obtain ⟨i, hi, rfl⟩ := hb
    exact chunkOp_length_mid S C _ i (by omega)
  · simp only [List.map_cons, List.map_nil]
    rw [chunkOp_length_last S C _ _ (by omega)]

/-- Every chunk length is positive and at most the chunk size. -/
theorem chunkPlan_length_bounds (S C : ℤ) (hS : 0 ≤ S) (hC : 0 < C) :
    ∀ c ∈ chunkPlan S C, 0 < c.length ∧ c.length ≤ C := by
  intro c hc
  rcases eq_or_lt_of_le hS with h0 | hpos
  · rw [← h0, chunkPlan_nil C hC] at hc
    simp at hc
  · obtain ⟨hn1, hlow, hup⟩ := numBlocks_bounds S C (by omega) hC
    obtain ⟨i, hik, rfl⟩ := chunkPlan_mem S C c hc
    have hkn : ((numBlocks S C).toNat : ℤ) = numBlocks S C := Int.toNat_of_nonneg (by omega)
    by_cases hlast : (i : ℤ) = numBlocks S C - 1
    · rw [chunkOp_length_last S C _ i hlast]
      have hring : C * numBlocks S C = C * (numBlocks S C - 1) + C := by ring
      constructor <;> linarith
    · rw [chunkOp_length_mid S C _ i hlast]
      exact ⟨hC, le_refl C⟩

/-- The chunk lengths sum exactly to the size. -/
theorem chunkPlan_sum_length (S C : ℤ) (hS : 0 ≤ S) (hC : 0 < C) :
    ((chunkPlan S C).map ChunkOp.length).sum = S := by
  rcases eq_or_lt_of_le hS with h0 | hpos
  · rw [← h0, chunkPlan_nil C hC]
    simp
  · obtain ⟨hn1, hlow, hup⟩ := numBlocks_bounds S C (by omega) hC
    have hkn : ((numBlocks S C).toNat : ℤ) = numBlocks S C := Int.toNat_of_nonneg (by omega)
    rw [chunkPlan_map_length S C (by omega) hC, List.sum_append, List.sum_replicate]
    simp only [List.sum_cons, List.sum_nil, add_zero, nsmul_eq_mul]
    have hcast : (((numBlocks S C).toNat - 1 : ℕ) : ℤ) = numBlocks S C - 1 := by omega
    rw [hcast]
    ring

/-- C1: for every size `S ≥ 0` and chunk size `0 < C ≤
FILE_RANGE_MAX_SIZE_BYTES`, the chunk loops of `uploadResetableStream` and
`UploadSeekableBlob` enqueue exactly `⌈S / C⌉` operations whose
`(start, length)` pairs are contiguous, non-overlapping (in start order),
cover `[0, S)` with no gaps, have every length positive and at most `C`,
have lengths summing exactly to `S`, and whose final chunk has length
`S - (chunks - 1) * C`. -/
theorem chunkPlan_partition (S C : ℤ) (hS : 0 ≤ S) (hC : 0 < C)
    (hCmax : C ≤ FILE_RANGE_MAX_SIZE_BYTES) :
    (chunkPlan S C).length = (⌈(S : ℚ) / (C : ℚ)⌉).toNat ∧
    (∀ (i : ℕ) (h : i + 1 < (chunkPlan S C).length),
      ((chunkPlan S C).get ⟨i + 1, h⟩).start
        = ((chunkPlan S C).get ⟨i, Nat.lt_of_succ_lt h⟩).start
          + ((chunkPlan S C).get ⟨i, Nat.lt_of_succ_lt h⟩).length) ∧
    (chunkPlan S C).Pairwise (fun a b => a.start + a.length ≤ b.start) ∧
    (∀ x : ℤ, (0 ≤ x ∧ x < S) ↔
      ∃ c ∈ chunkPlan S C, c.start ≤ x ∧ x < c.start + c.length) ∧
    (∀ c ∈ chunkPlan S C, 0 < c.length ∧ c.length ≤ C) ∧
    ((chunkPlan S C).map ChunkOp.length).sum = S ∧
    (∀ c, (chunkPlan S C).getLast? = some c →
      c.length = S - (((chunkPlan S C).length : ℤ) - 1) * C) := by
  rcases eq_or_lt_of_le hS with h0 | hpos
  · have hnil : chunkPlan S C = [] := by rw [← h0]; exact chunkPlan_nil C hC
    rw [hnil]
    refine ⟨?_, ?_, ?_, ?_, ?_, ?_, ?_⟩
    · rw [← h0]; simp
    · intro i h; simp at h
    · simp
    · intro x
      constructor
      · rintro ⟨h1, h2⟩; omega
      · rintro ⟨c, hc, _⟩; simp at hc
    · intro c hc; simp at hc
    · rw [← h0]; simp
    · intro c hc; simp at hc
  · obtain ⟨hn1, hlow, hup⟩ := numBlocks_bounds S C (by omega) hC
    have hkn : ((numBlocks S C).toNat : ℤ) = numBlocks S C := Int.toNat_of_nonneg (by omega)
    have hlen := chunkPlan_length_eq S C
    have hceil : ⌈(S : ℚ) / (C : ℚ)⌉ = numBlocks S C := by
      rw [Int.ceil_eq_iff]
      have hCq : (0:ℚ) < (C:ℚ) := by exact_mod_cast hC
      constructor
      · rw [lt_div_iff hCq]
        have h2 : (C:ℚ) * ((numBlocks S C : ℤ) - 1 : ℤ) ≤ ((S:ℤ) - 1 : ℤ) := by
          exact_mod_cast hlow
        push_cast at h2 ⊢
        nlinarith
      · rw [div_le_iff hCq]
        have h3 : (S:ℚ) ≤ (C:ℚ) * ((numBlocks S C : ℤ) : ℚ) := by exact_mod_cast hup
        nlinarith
    refine ⟨?_, ?_, ?_, ?_, chunkPlan_length_bounds S C hS hC,
      chunkPlan_sum_length S C hS hC, ?_⟩
    · rw [hlen, hceil]
    · intro i h
      rw [chunkPlan_get', chunkPlan_get']
      rw [hlen] at h
      have hmid : (i : ℤ) ≠ numBlocks S C - 1 := by omega
      rw [chunkOp_start, chunkOp_start, chunkOp_length_mid S C _ i hmid]
      push_cast
      ring
    · rw [List.pairwise_iff_get]
      intro a b hab
      rw [chunkPlan_get', chunkPlan_get']
      have hb : b.1 < (numBlocks S C).toNat := hlen ▸ b.2
      have habv : a.1 < b.1 := hab
      have hanl : (a.1 : ℤ) ≠ numBlocks S C - 1 := by omega
      rw [chunkOp_start, chunkOp_start, chunkOp_length_mid S C _ a.1 hanl]
      have hab' : (a.1 : ℤ) + 1 ≤ (b.1 : ℤ) := by exact_mod_cast habv
      calc C * (a.1 : ℤ) + C = C * ((a.1 : ℤ) + 1) := by ring
        _ ≤ C * (b.1 : ℤ) := mul_le_mul_of_nonneg_left hab' hC.le
    · intro x
      constructor
      · rintro ⟨hx0, hxS⟩
        have hxdiv0 : 0 ≤ x / C := Int.ediv_nonneg hx0 hC.le
        have hxdivlt : x / C < numBlocks S C := by
          rw [Int.ediv_lt_iff_lt_mul hC]
          nlinarith
        have hcast : (((x / C).toNat : ℤ)) = x / C := Int.toNat_of_nonneg hxdiv0
        refine ⟨chunkOp S C (numBlocks S C) (x / C).toNat, ?_, ?_, ?_⟩
        · simp only [chunkPlan, List.mem_map, List.mem_range]
          exact ⟨(x / C).toNat, by omega, rfl⟩
        · rw [chunkOp_start, hcast, mul_comm]
          exact Int.ediv_mul_le x hC.ne'
        · by_cases hlast : ((x / C).toNat : ℤ) = numBlocks S C - 1
          · rw [chunkOp_length_last S C _ _ hlast, chunkOp_start, hcast]
            rw [hcast] at hlast
            rw [hlast]
            linarith
          · rw [chunkOp_length_mid S C _ _ hlast, chunkOp_start, hcast]
            have h2 : x < (x / C + 1) * C := Int.lt_ediv_add_one_mul_self x hC
            have hr : (x / C + 1) * C = C * (x / C) + C := by ring
            linarith
      · rintro ⟨c, hc, hc1, hc2⟩
        obtain ⟨i, hik, rfl⟩ := chunkPlan_mem S C c hc
        constructor
        · rw [chunkOp_start] at hc1
          have hi0 : (0:ℤ) ≤ (i : ℤ) := Int.natCast_nonneg i
          nlinarith
        · by_cases hlast : (i : ℤ) = numBlocks S C - 1
          · rw [chunkOp_length_last S C _ _ hlast, chunkOp_start, hlast] at hc2
            linarith
          · rw [chunkOp_length_mid S C _ _ hlast, chunkOp_start] at hc2
            have hi : (i : ℤ) + 1 ≤ numBlocks S C - 1 := by omega
            have hmul : C * ((i : ℤ) + 1) ≤ C * (numBlocks S C - 1) :=
              mul_le_mul_of_nonneg_left hi hC.le
            have hr : C * ((i : ℤ) + 1) = C * (i : ℤ) + C := by ring
            linarith
    · intro c hc
      have h1 : ((chunkPlan S C).map ChunkOp.length).getLast?
          = some (S - C * (numBlocks S C - 1)) := by
        rw [chunkPlan_map_length S C (by omega) hC]
        exact List.getLast?_concat _
      have h2 : ((chunkPlan S C).map ChunkOp.length).getLast? = some c.length := by
        rw [List.getLast?_map, hc]
        rfl
      rw [h1] at h2
      have h3 : c.length = S - C * (numBlocks S C - 1) := by
        injection h2 with h2'
        exact h2'.symm
      rw [h3, hlen]
      have h4 : (((numBlocks S C).toNat : ℤ)) - 1 = numBlocks S C - 1 := by omega
      rw [h4]
      ring

/-- C1 witness: a 10-byte file with 4-byte chunks yields the plan
`[(0,4), (4,4), (8,2)]`, for which all the partition properties are
asserted by the theorem. -/
theorem chunkPlan_partition_witness :
    chunkPlan 10 4 = [⟨0, 4⟩, ⟨4, 4⟩, ⟨8, 2⟩] ∧
    ((chunkPlan 10 4).length = (⌈((10:ℤ) : ℚ) / ((4:ℤ) : ℚ)⌉).toNat ∧
    (∀ (i : ℕ) (h : i + 1 < (chunkPlan 10 4).length),
      ((chunkPlan 10 4).get ⟨i + 1, h⟩).start
        = ((chunkPlan 10 4).get ⟨i, Nat.lt_of_succ_lt h⟩).start
          + ((chunkPlan 10 4).get ⟨i, Nat.lt_of_succ_lt h⟩).length) ∧
    (chunkPlan 10 4).Pairwise (fun a b => a.start + a.length ≤ b.start) ∧
    (∀ x : ℤ, (0 ≤ x ∧ x < 10) ↔
      ∃ c ∈ chunkPlan 10 4, c.start ≤ x ∧ x < c.start + c.length) ∧
    (∀ c ∈ chunkPlan 10 4, 0 < c.length ∧ c.length ≤ 4) ∧
    ((chunkPlan 10 4).map ChunkOp.length).sum = 10 ∧
    (∀ c, (chunkPlan 10 4).getLast? = some c →
      c.length = 10 - (((chunkPlan 10 4).length : ℤ) - 1) * 4)) :=
  ⟨by decide,
   chunkPlan_partition 10 4 (by norm_num) (by norm_num)
     (by norm_num [FILE_RANGE_MAX_SIZE_BYTES])⟩

/-! # C7 — progress reporting is cumulative and monotone -/

theorem getLast?_cons_of_ne_nil {α : Type} (a : α) (l : List α) (h : l ≠ []) :
    (a :: l).getLast? = l.getLast? := by
  cases l with
  | nil => exact absurd rfl h
  | cons b t => exact List.getLast?_cons_cons

theorem progressReports_ne_nil (tp : ℤ) (l : List ℤ) (h : l ≠ []) :
    progressReports tp l ≠ [] := by
  cases l with
  | nil => exact absurd rfl h
  | cons a rest => simp [progressReports]

/-- The last reported `loadedBytes` value is the initial progress plus the
sum of all completed chunk lengths. -/
theorem progressReports_getLast? (tp : ℤ) (l : List ℤ) (h : l ≠ []) :
    (progressReports tp l).getLast? = some (tp + l.sum) := by
  induction l generalizing tp with
  | nil => exact absurd rfl h
  | cons a rest ih =>
    cases rest with
    | nil => simp [progressReports]
    | cons b t =>
      rw [progressReports,
          getLast?_cons_of_ne_nil _ _ (progressReports_ne_nil _ _ (by simp)),
          ih (tp + a) (by simp)]
      congr 1
      simp only [List.sum_cons]
      ring

/-- With positive chunk lengths the reported values strictly increase. -/
theorem progressReports_chain_lt (tp : ℤ) (l : List ℤ) (h : ∀ x ∈ l, 0 < x) :
    (progressReports tp l).Chain' (· < ·) := by
  induction l generalizing tp with
  | nil => simp [progressReports]
  | cons a rest ih =>
    rw [progressReports, List.chain'_cons']
    constructor
    · intro b hb
      cases rest with
      | nil => simp [progressReports] at hb
      | cons c t =>
        simp only [progressReports, List.head?_cons, Option.mem_def,
          Option.some_inj] at hb
        have hc : 0 < c := h c (by simp)
        omega
    · exact ih (tp + a) (fun x hx => h x (by simp [hx]))

/-- C7: in the chunked upload orchestrators every progress callback reports
the cumulative transferred total; for any order in which the chunks of a
positive-size upload complete (any permutation of the chunk lengths), the
reported `loadedBytes` sequence is monotonically non-decreasing, its final
value is exactly the total size, and the total size is reported exactly
once. -/
theorem uploadProgress_cumulative (S C : ℤ) (hS : 0 < S) (hC : 0 < C)
    (hCmax : C ≤ FILE_RANGE_MAX_SIZE_BYTES)
    (order : List ℤ) (hperm : order.Perm ((chunkPlan S C).map ChunkOp.length)) :
    (progressReports 0 order).Chain' (· ≤ ·) ∧
    (progressReports 0 order).getLast? = some S ∧
    (progressReports 0 order).count S = 1 := by
  have hpos : ∀ x ∈ order, 0 < x := by
    intro x hx
    have hx2 : x ∈ (chunkPlan S C).map ChunkOp.length := hperm.mem_iff.mp hx
    simp only [List.mem_map] at hx2
    obtain ⟨c, hc, rfl⟩ := hx2
    exact (chunkPlan_length_bounds S C hS.le hC c hc).1
  have hsum : order.sum = S := by
    rw [hperm.sum_eq, chunkPlan_sum_length S C hS.le hC]
  have hne : order ≠ [] := by
    intro h0
    have hlen := hperm.length_eq
    rw [h0] at hlen
    simp only [List.length_nil, List.length_map] at hlen
    rw [chunkPlan_length_eq] at hlen
    obtain ⟨hn1, _, _⟩ := numBlocks_bounds S C (by omega) hC
    omega
  have hchain := progressReports_chain_lt 0 order hpos
  have hlast : (progressReports 0 order).getLast? = some S := by
    rw [progressReports_getLast? 0 order hne, hsum]
    norm_num
  refine ⟨hchain.imp (fun _ _ hab => le_of_lt hab), hlast, ?_⟩
  have hne2 : progressReports 0 order ≠ [] := progressReports_ne_nil 0 order hne
  have hmem : S ∈ progressReports 0 order := by
    have hg := List.getLast?_eq_getLast _ hne2
    rw [hg] at hlast
    injection hlast with h'
    rw [← h']
    exact List.getLast_mem hne2
  have hnodup : (progressReports 0 order).Nodup :=
    (List.chain'_iff_pairwise.mp hchain).imp (fun hab => ne_of_lt hab)
  exact List.count_eq_one_of_mem hnodup hmem

/-- C7 witness: a 10 MB upload with 4 MB chunks yields chunks of
4 MB, 4 MB, 2 MB at offsets 0, 4194304, 8388608, and completing them in
order reports [4194304, 8388608, 10485760]: monotone, reaching 10485760
exactly once, at completion. -/
theorem uploadProgress_cumulative_witness :
    chunkPlan 10485760 4194304
        = [⟨0, 4194304⟩, ⟨4194304, 4194304⟩, ⟨8388608, 2097152⟩] ∧
    ((progressReports 0 [4194304, 4194304, 2097152]).Chain' (· ≤ ·) ∧
     (progressReports 0 [4194304, 4194304, 2097152]).getLast? = some 10485760 ∧
     (progressReports 0 [4194304, 4194304, 2097152]).count 10485760 = 1) :=
  ⟨by decide,
   uploadProgress_cumulative 10485760 4194304 (by norm_num) (by norm_num)
     (by norm_num [FILE_RANGE_MAX_SIZE_BYTES])
     [4194304, 4194304, 2097152] (by decide)⟩

end FileClientSpec
